import Mathlib

/-!
Verification of the Coqtail `xmlInterface.py` XML codec.

This file gives a shallow embedding of `src/autoload/xmlInterface.py`:
the Python value model handled by the codec (`PyValue`), the element
tree produced by `xml.etree.ElementTree` (`Xml`), the marshalling
functions `_from_value` / `_to_value` / `_to_response`, the unescaping
helper `_unescape`, the response framer `raw_response` (together with a
model of `ET.fromstring` on the XML fragment the protocol uses), the
command builder `add` (with a model of `ET.tostring`), and the version
dispatcher `XmlInterface`.

Python exceptions are modelled with `Except String`; `None` returned
from `raw_response` is the `Option.none` inside its result.
-/

set_option maxRecDepth 100000

/-- Python decimal digits of a natural number, most significant first.
`natDigitsAux` is fuel-indexed so that it is structurally recursive;
the fuel is always sufficient when it is at least the number of digits. -/
def natDigitsAux : Nat → Nat → List Char
  | 0, _ => []
  | fuel + 1, n =>
    if n < 10 then [Nat.digitChar n]
    else natDigitsAux fuel (n / 10) ++ [Nat.digitChar (n % 10)]

/-- Model of Python `str` on a natural number. -/
def pyNatStr (n : Nat) : String := ⟨natDigitsAux (n + 1) n⟩

/-- Model of Python `str` on an `int`: an optional minus sign followed by
the decimal digits of the absolute value. -/
def pyIntStr (n : Int) : String :=
  if n < 0 then "-" ++ pyNatStr n.natAbs else pyNatStr n.natAbs

/-- Numeric value of a decimal digit character, `none` on anything else. -/
def digitVal (c : Char) : Option Nat :=
  if c.isDigit then some (c.toNat - 48) else none

/-- Parse a run of decimal digits, accumulating left to right. -/
def parseDigitsAcc : List Char → Nat → Option Nat
  | [], acc => some acc
  | c :: cs, acc =>
    match digitVal c with
    | some d => parseDigitsAcc cs (10 * acc + d)
    | none => none

/-- Parse a nonempty run of decimal digits as a natural number. -/
def parseNatDigits (l : List Char) : Option Nat :=
  match l with
  | [] => Option.none
  | _ => parseDigitsAcc l 0

/-- Model of Python `int(str)` for strings without surrounding
whitespace: an optional sign followed by a nonempty run of decimal
digits; everything else raises `ValueError`. -/
def pyint (s : String) : Except String Int :=
  let res : Option Int :=
    match s.toList with
    | [] => Option.none
    | c :: cs =>
      if c = '-' then (parseNatDigits cs).map (fun n => -(n : Int))
      else if c = '+' then (parseNatDigits cs).map (fun n => (n : Int))
      else (parseNatDigits (c :: cs)).map (fun n => (n : Int))
  match res with
  | some n => .ok n
  | Option.none => .error ("ValueError: invalid literal for int(): " ++ s)

/-- The Python runtime values that flow through the codec: the builtin
types the encoder dispatches on (`()`, `bool`, `int`, `str`, `list`,
`tuple`) together with the Coqtop namedtuples declared at the top of
`xmlInterface.py` and Python `None` (as carried inside `Option`). -/
inductive PyValue where
  | none
  | bool (b : Bool)
  | int (n : Int)
  | str (s : String)
  | list (vs : List PyValue)
  | tuple (vs : List PyValue)
  | option (val : PyValue)
  | inl (val : PyValue)
  | inr (val : PyValue)
  | goal (id hyp ccl : PyValue)
  | goals (fg bg shelved given_up : PyValue)
  | evar (info : PyValue)
  | optionState (sync depr name value : PyValue)
  | optionValue (val : PyValue)
  | stateid (id : Int)
  | status (path proofname allproofs proofnum : PyValue)
  | coqInfo (coq_version protocol_version release_data compile_data : PyValue)

/-- Model of an `xml.etree.ElementTree` element: tag, attributes, the
text preceding the first child, the children, and the tail text that
follows the element inside its parent.  An absent (`None`) text is
identified with the empty string, which is observationally equivalent
for every operation this program performs. -/
inductive Xml where
  | mk (tag : String) (attrs : List (String × String)) (text : String)
       (children : List Xml) (tail : String)

def Xml.tag : Xml → String
  | .mk t _ _ _ _ => t

def Xml.attrs : Xml → List (String × String)
  | .mk _ a _ _ _ => a

def Xml.text : Xml → String
  | .mk _ _ tx _ _ => tx

def Xml.children : Xml → List Xml
  | .mk _ _ _ c _ => c

def Xml.tail : Xml → String
  | .mk _ _ _ _ tl => tl

/-- Model of `Element.get`: look up an attribute, `none` when absent. -/
def attrGet (attrs : List (String × String)) (key : String) : Option String :=
  match attrs with
  | [] => Option.none
  | (k, v) :: rest => if k = key then some v else attrGet rest key

def Xml.get (x : Xml) (key : String) : Option String :=
  attrGet x.attrs key

/-- Message built by the `unexpected` helper:
`"Expected {' or '.join(expected)}, but got {got}"`. -/
def unexpectedMsg (expected : List String) (got : String) : String :=
  "Expected " ++ String.intercalate " or " expected ++ ", but got " ++ got

/-- Python `str` of an optional attribute value: `str(None) = "None"`. -/
def optStr : Option String → String
  | Option.none => "None"
  | some s => s

/-- The name of the Python runtime type of a value, as it appears inside
`str(type(val))`. -/
def pyTypeName : PyValue → String
  | .none => "NoneType"
  | .bool _ => "bool"
  | .int _ => "int"
  | .str _ => "str"
  | .list _ => "list"
  | .tuple _ => "tuple"
  | .option _ => "Option"
  | .inl _ => "Inl"
  | .inr _ => "Inr"
  | .goal _ _ _ => "Goal"
  | .goals _ _ _ _ => "Goals"
  | .evar _ => "Evar"
  | .optionState _ _ _ _ => "OptionState"
  | .optionValue _ => "OptionValue"
  | .stateid _ => "StateId"
  | .status _ _ _ _ => "Status"
  | .coqInfo _ _ _ _ => "CoqInfo"

/-- Model of Python `str(type(val))`. -/
def pyTypeStr (v : PyValue) : String :=
  "<class \x27" ++ pyTypeName v ++ "\x27>"

mutual

/-- Model of `Element.itertext()` joined into one string: the node's own
text followed, child by child, by the child's texts and its tail. -/
def itertext : Xml → String
  | .mk _ _ text children _ => text ++ itertextChildren children

def itertextChildren : List Xml → String
  | [] => ""
  | x :: xs => itertext x ++ x.tail ++ itertextChildren xs

end

mutual

/-- `XmlInterface86._from_value`: construct an xml element from a
Python value.  The calls to `_build_xml` are inlined (each call site
passes a literal tag and either no children, a list of children or a
single child, and `_build_xml` builds exactly the nodes written here).
Values outside the closed set raise via `unexpected((), type(val))`;
a one-element tuple raises `IndexError` at `val[1]`. -/
def _from_value : PyValue → Except String Xml
  | .tuple [] => .ok (.mk "unit" [] "" [] "")
  | .bool b => .ok (.mk "bool" [("val", if b then "true" else "false")] "" [] "")
  | .int n => .ok (.mk "int" [] (pyIntStr n) [] "")
  | .str s => .ok (.mk "string" [] s [] "")
  | .list vs => do
    let cs ← fromValueList vs
    .ok (.mk "list" [] "" cs "")
  | .tuple [_] => .error "IndexError: tuple index out of range"
  | .tuple (a :: b :: _) => do
    let xa ← _from_value a
    let xb ← _from_value b
    .ok (.mk "pair" [] "" [xa, xb] "")
  | .option .none => .ok (.mk "option" [("val", "none")] "" [] "")
  | .option v => do
    let x ← _from_value v
    .ok (.mk "option" [("val", "some")] "" [x] "")
  | .inl v => do
    let x ← _from_value v
    .ok (.mk "union" [("val", "in_l")] "" [x] "")
  | .inr v => do
    let x ← _from_value v
    .ok (.mk "union" [("val", "in_r")] "" [x] "")
  | .stateid n => .ok (.mk "state_id" [("val", pyIntStr n)] "" [] "")
  | v => .error (unexpectedMsg [] (pyTypeStr v))

/-- Conversion of a list of children, one `_from_value` call each. -/
def fromValueList : List PyValue → Except String (List Xml)
  | [] => .ok []
  | v :: vs => do
    let x ← _from_value v
    let xs ← fromValueList vs
    .ok (x :: xs)

end

/-- Build an n-ary record from the decoded children, modelling the
star-unpacking `R(*map(self._to_value, xml))`, which raises `TypeError`
unless the arity matches. -/
def unpack3 (mk : PyValue → PyValue → PyValue → PyValue) :
    List PyValue → Except String PyValue
  | [a, b, c] => .ok (mk a b c)
  | _ => .error "TypeError: wrong number of record arguments"

def unpack4 (mk : PyValue → PyValue → PyValue → PyValue → PyValue) :
    List PyValue → Except String PyValue
  | [a, b, c, d] => .ok (mk a b c d)
  | _ => .error "TypeError: wrong number of record arguments"

/-- Propagate a decoded-children result into a `list` value. -/
def listOf : Except String (List PyValue) → Except String PyValue
  | .ok vs => .ok (.list vs)
  | .error e => .error e

/-- Propagate a decoded-children result into a tuple value (the `pair`
branch: `tuple(map(self._to_value, xml))`, no arity check). -/
def tupleOf : Except String (List PyValue) → Except String PyValue
  | .ok vs => .ok (.tuple vs)
  | .error e => .error e

/-- Propagate a parsed integer into an `int` value. -/
def intOf : Except String Int → Except String PyValue
  | .ok n => .ok (.int n)
  | .error e => .error e

/-- Wrap a decoded child with a one-argument constructor. -/
def wrapOf (mk : PyValue → PyValue) : Except String PyValue → Except String PyValue
  | .ok v => .ok (mk v)
  | .error e => .error e

/-- Star-unpack decoded children into a three-field record. -/
def recordOf3 (mk : PyValue → PyValue → PyValue → PyValue) :
    Except String (List PyValue) → Except String PyValue
  | .ok vs => unpack3 mk vs
  | .error e => .error e

/-- Star-unpack decoded children into a four-field record. -/
def recordOf4 (mk : PyValue → PyValue → PyValue → PyValue → PyValue) :
    Except String (List PyValue) → Except String PyValue
  | .ok vs => unpack4 mk vs
  | .error e => .error e

/-- The `bool` branch of `_to_value`: dispatch on the `val` attribute. -/
def decodeBoolAttr : Option String → Except String PyValue
  | some "true" => .ok (.bool true)
  | some "false" => .ok (.bool false)
  | v => .error (unexpectedMsg ["true", "false"] (optStr v))

/-- The `state_id` branch of `_to_value`: `StateId(int(xml.get('val')))`;
an absent attribute is `int(None)`, a `TypeError`. -/
def stateidAttr : Option String → Except String PyValue
  | Option.none => .error "TypeError: int() argument must be a string"
  | some s =>
    match pyint s with
    | .ok n => .ok (.stateid n)
    | .error e => .error e

/-- Sequence a decoded head onto a decoded rest, first error wins. -/
def consOf :
    Except String PyValue → Except String (List PyValue) →
      Except String (List PyValue)
  | .ok v, .ok vs => .ok (v :: vs)
  | .error e, _ => .error e
  | _, .error e => .error e

mutual

/-- `XmlInterface86._to_value`: parse an xml element into a Python
value, dispatching on the tag in the order of the source's `elif`
chain.  `xml[0]` on a childless node raises `IndexError`; an
unrecognized tag raises via `unexpected((), tag)`. -/
def _to_value : Xml → Except String PyValue
  | .mk tag attrs text children _ =>
    if tag = "unit" then .ok (.tuple [])
    else if tag = "bool" then decodeBoolAttr (attrGet attrs "val")
    else if tag = "int" then intOf (pyint text)
    else if tag = "string" ∨ tag = "richpp" then
      .ok (.str (text ++ itertextChildren children))
    else if tag = "list" then listOf (toValueList children)
    else if tag = "pair" then tupleOf (toValueList children)
    else if tag = "option" then decodeOptionBranch (attrGet attrs "val") children
    else if tag = "union" then decodeUnionBranch (attrGet attrs "val") children
    else if tag = "goal" then recordOf3 .goal (toValueList children)
    else if tag = "goals" then recordOf4 .goals (toValueList children)
    else if tag = "evar" then decodeFirstChild .evar children
    else if tag = "option_state" then recordOf4 .optionState (toValueList children)
    else if tag = "option_value" then decodeFirstChild .optionValue children
    else if tag = "state_id" then stateidAttr (attrGet attrs "val")
    else if tag = "status" then recordOf4 .status (toValueList children)
    else if tag = "coq_info" then recordOf4 .coqInfo (toValueList children)
    else if tag = "message" then toValueRichpp children
    else .error (unexpectedMsg [] tag)

/-- The `xml[0]` pattern shared by the `some`/`in_l`/`in_r`/`evar`/
`option_value` branches: decode the first child (raising `IndexError`
when there is none) and wrap it with the given constructor. -/
def decodeFirstChild (mk : PyValue → PyValue) : List Xml → Except String PyValue
  | [] => .error "IndexError: child index out of range"
  | c :: _ => wrapOf mk (_to_value c)

/-- The `option` branch of `_to_value`: dispatch on the `val`
attribute, then decode `xml[0]` in the `some` case. -/
def decodeOptionBranch : Option String → List Xml → Except String PyValue
  | some "none", _ => .ok (.option .none)
  | some "some", [] => .error "IndexError: child index out of range"
  | some "some", c :: _ => wrapOf .option (_to_value c)
  | v, _ => .error (unexpectedMsg ["none", "some"] (optStr v))

/-- The `union` branch of `_to_value`: dispatch on the `val`
attribute, then decode `xml[0]`. -/
def decodeUnionBranch : Option String → List Xml → Except String PyValue
  | some "in_l", [] => .error "IndexError: child index out of range"
  | some "in_l", c :: _ => wrapOf .inl (_to_value c)
  | some "in_r", [] => .error "IndexError: child index out of range"
  | some "in_r", c :: _ => wrapOf .inr (_to_value c)
  | v, _ => .error (unexpectedMsg ["in_l", "in_r"] (optStr v))

/-- Decoding of every child of a `list`/`pair`/record node in order. -/
def toValueList : List Xml → Except String (List PyValue)
  | [] => .ok []
  | x :: xs => consOf (_to_value x) (toValueList xs)

/-- Model of `self._to_value(xml.find('richpp'))` in the `message`
branch: decode the first child tagged `richpp`; when `find` returns
`None` the recursive call raises `AttributeError` on `None.tag`. -/
def toValueRichpp : List Xml → Except String PyValue
  | [] => .error "AttributeError: NoneType object has no attribute tag"
  | x :: xs => if x.tag = "richpp" then _to_value x else toValueRichpp xs

end

mutual

/-- The values the encoder handles, as enumerated by claim C1: unit,
booleans, integers, strings, lists of such values, two-element pairs,
`Option` none/some, `Inl`/`Inr`, and `StateId`. -/
def encodable : PyValue → Bool
  | .bool _ => true
  | .int _ => true
  | .str _ => true
  | .list vs => encodableList vs
  | .tuple [] => true
  | .tuple [a, b] => encodable a && encodable b
  | .option .none => true
  | .option v => encodable v
  | .inl v => encodable v
  | .inr v => encodable v
  | .stateid _ => true
  | _ => false

/-- Pointwise encodability of a list of values. -/
def encodableList : List PyValue → Bool
  | [] => true
  | v :: vs => encodable v && encodableList vs

end

/-- Is this value Python `None`?  (Decidable helper for case splits.) -/
def isNoneV : PyValue → Bool
  | .none => true
  | _ => false

/-- The runtime types `_from_value` does not handle: everything that
falls through to `unexpected((), type(val))` — `None` and the
namedtuples `Goal`, `Goals`, `Evar`, `OptionState`, `OptionValue`,
`Status`, `CoqInfo`. -/
def unencodableType : PyValue → Bool
  | .none => true
  | .goal _ _ _ => true
  | .goals _ _ _ _ => true
  | .evar _ => true
  | .optionState _ _ _ _ => true
  | .optionValue _ => true
  | .status _ _ _ _ => true
  | .coqInfo _ _ _ _ => true
  | _ => false

/-- The fixed tag vocabulary recognized by `_to_value`. -/
def knownTag (t : String) : Bool :=
  t == "unit" || t == "bool" || t == "int" || t == "string" || t == "richpp" ||
  t == "list" || t == "pair" || t == "option" || t == "union" || t == "goal" ||
  t == "goals" || t == "evar" || t == "option_state" || t == "option_value" ||
  t == "state_id" || t == "status" || t == "coq_info" || t == "message"

mutual

/-- Every node tagged `pair` anywhere in this tree has exactly two
children. -/
def pairsBinary : Xml → Bool
  | .mk tag _ _ children _ =>
    (tag != "pair" || children.length == 2) && pairsBinaryChildren children

def pairsBinaryChildren : List Xml → Bool
  | [] => true
  | x :: xs => pairsBinary x && pairsBinaryChildren xs

end

/-- The Coqtop response types `Ok` and `Err` from the top of the file.
`Ok` carries a value and a message (default `""`); `Err` carries a
message, a location pair (default `(-1, -1)`) and a timeout flag
(default `false`). -/
inductive Result where
  | ok (val : PyValue) (msg : String)
  | err (msg : String) (loc : Int × Int) (timed_out : Bool)

/-- Model of the statement `val.msg += extra` in `raw_response`. -/
def Result.addMsg : Result → String → Result
  | .ok v m, extra => .ok v (m ++ extra)
  | .err m l t, extra => .err (m ++ extra) l t

/-- Parse an optional location attribute: `int(xml.get('loc_s', -1))`.
When the attribute is absent the default `-1` is already an `int`;
when present the string is parsed and may raise `ValueError`. -/
def locAttr : Option String → Except String Int
  | Option.none => .ok (-1)
  | some s => pyint s

/-- The `val="good"` branch of `_to_response`: `Ok(self._to_value(xml[0]))`,
raising `IndexError` when the node has no children. -/
def goodBranch : List Xml → Except String Result
  | [] => .error "IndexError: child index out of range"
  | c :: _ =>
    match _to_value c with
    | .ok v => .ok (.ok v "")
    | .error e => .error e

/-- The `val="fail"` branch of `_to_response`: parse the two optional
location attributes and join all text content of the node. -/
def failBranch (xml : Xml) : Except String Result :=
  match locAttr (xml.get "loc_s") with
  | .error e => .error e
  | .ok loc_s =>
    match locAttr (xml.get "loc_e") with
    | .error e => .error e
    | .ok loc_e => .ok (.err (itertext xml) (loc_s, loc_e) false)

/-- `XmlInterface86._to_response`: parse a `value` element into `Ok` or
`Err`.  The `assert` on the tag is modelled as an `AssertionError`;
`val="good"` reads `xml[0]` (raising `IndexError` when childless);
`val="fail"` joins all text via `itertext` and reads the location
attributes; any other `val` raises via `unexpected`. -/
def _to_response (xml : Xml) : Except String Result :=
  if xml.tag ≠ "value" then .error "AssertionError" else
  match xml.get "val" with
  | some "good" => goodBranch xml.children
  | some "fail" => failBranch xml
  | v => .error (unexpectedMsg ["good", "fail"] (optStr v))

/-- Python `bytes.replace` (leftmost, non-overlapping), fuel-indexed so
that it is structurally recursive; with fuel at least the length of the
subject it performs every replacement. -/
def pyReplaceFuel : Nat → List Char → List Char → List Char → List Char
  | 0, s, _, _ => s
  | fuel + 1, s, pat, rep =>
    match s with
    | [] => []
    | c :: rest =>
      if pat ≠ [] ∧ pat.isPrefixOf s then
        rep ++ pyReplaceFuel fuel (s.drop pat.length) pat rep
      else
        c :: pyReplaceFuel fuel rest pat rep

/-- Python `bytes.replace` for a nonempty pattern. -/
def pyReplace (s pat rep : List Char) : List Char :=
  pyReplaceFuel (s.length + 1) s pat rep

/-- `XmlInterfaceBase._unescape`: replace the four escape sequences of
the `charmap` with their unescaped characters.  The four replacements
are independent (no marker overlaps another marker or a replacement),
so the dictionary iteration order is irrelevant; they are applied here
in the insertion order of the source. -/
def _unescape (cmd : String) : String :=
  let l1 := pyReplace cmd.toList "&nbsp;".toList " ".toList
  let l2 := pyReplace l1 "&apos;".toList "\x27".toList
  let l3 := pyReplace l2 "&#40;".toList "(".toList
  let l4 := pyReplace l3 "&#41;".toList ")".toList
  ⟨l4⟩

/-- Does `pat` occur as a contiguous run inside `s`? -/
def containsSub (pat : List Char) : List Char → Bool
  | [] => pat.isEmpty
  | c :: rest => pat.isPrefixOf (c :: rest) || containsSub pat rest

/-- Characters allowed in an element or attribute name by the parser
model (ample for the protocol's fixed vocabulary). -/
def isNameChar (c : Char) : Bool :=
  c.isAlphanum || c = '_' || c = '-' || c = '.' || c = ':'

def isSpaceChar (c : Char) : Bool :=
  c = ' ' || c = '\t' || c = '\n' || c = '\r'

/-- Resolve one entity reference after a `&`: the five XML predefined
entities and decimal character references, as `ET.fromstring` does. -/
def parseEntity (cs : List Char) : Option (Char × List Char) :=
  if "amp;".toList.isPrefixOf cs then some ('&', cs.drop 4)
  else if "lt;".toList.isPrefixOf cs then some ('<', cs.drop 3)
  else if "gt;".toList.isPrefixOf cs then some ('>', cs.drop 3)
  else if "apos;".toList.isPrefixOf cs then some ('\x27', cs.drop 5)
  else if "quot;".toList.isPrefixOf cs then some ('"', cs.drop 5)
  else if cs.headD ' ' = '#' then
    let ds := (cs.drop 1).takeWhile Char.isDigit
    let rest := (cs.drop 1).dropWhile Char.isDigit
    match ds, rest with
    | [], _ => Option.none
    | _, ';' :: rest2 =>
      match parseDigitsAcc ds 0 with
      | some n => if n.isValidChar then some (Char.ofNat n, rest2) else Option.none
      | Option.none => Option.none
    | _, _ => Option.none
  else Option.none

/-- Consume character data up to the next `<` (or the end of input),
resolving entity references; an unresolvable `&` is a parse error. -/
def parseText : Nat → List Char → Option (List Char × List Char)
  | 0, _ => Option.none
  | _, [] => some ([], [])
  | fuel + 1, c :: cs =>
    if c = '<' then some ([], c :: cs)
    else if c = '&' then
      match parseEntity cs with
      | some (ch, rest) =>
        match parseText fuel rest with
        | some (txt, rest2) => some (ch :: txt, rest2)
        | Option.none => Option.none
      | Option.none => Option.none
    else
      match parseText fuel cs with
      | some (txt, rest2) => some (c :: txt, rest2)
      | Option.none => Option.none

/-- Consume an attribute value quoted by `q`, resolving entities. -/
def parseAttrValue : Nat → Char → List Char → Option (List Char × List Char)
  | 0, _, _ => Option.none
  | _, _, [] => Option.none
  | fuel + 1, q, c :: cs =>
    if c = q then some ([], cs)
    else if c = '<' then Option.none
    else if c = '&' then
      match parseEntity cs with
      | some (ch, rest) =>
        match parseAttrValue fuel q rest with
        | some (txt, rest2) => some (ch :: txt, rest2)
        | Option.none => Option.none
      | Option.none => Option.none
    else
      match parseAttrValue fuel q cs with
      | some (txt, rest2) => some (c :: txt, rest2)
      | Option.none => Option.none

/-- Consume the attribute list of a start tag, stopping in front of
`/>` or `>`. -/
def parseAttrList : Nat → List Char → Option (List (String × String) × List Char)
  | 0, _ => Option.none
  | _, [] => Option.none
  | fuel + 1, c :: cs =>
    if isSpaceChar c then parseAttrList fuel cs
    else if c = '/' ∨ c = '>' then some ([], c :: cs)
    else if isNameChar c then
      let name := (c :: cs).takeWhile isNameChar
      let rest := (c :: cs).dropWhile isNameChar
      match rest with
      | '=' :: q :: rest2 =>
        if q = '"' ∨ q = '\x27' then
          match parseAttrValue fuel q rest2 with
          | some (v, rest3) =>
            match parseAttrList fuel rest3 with
            | some (attrs, rest4) => some ((⟨name⟩, ⟨v⟩) :: attrs, rest4)
            | Option.none => Option.none
          | Option.none => Option.none
        else Option.none
      | _ => Option.none
    else Option.none

/-- Replace the tail text of a node. -/
def Xml.setTail : Xml → String → Xml
  | .mk tag attrs text children _, tl => .mk tag attrs text children tl

mutual

/-- Parse one element starting at `<`: start tag, attributes, then
either a self-closing `/>` or content followed by the matching end
tag.  Anything else is a parse error (`Option.none`), in particular a
buffer that ends before the element is closed. -/
def parseElement : Nat → List Char → Option (Xml × List Char)
  | 0, _ => Option.none
  | fuel + 1, cs =>
    match cs with
    | '<' :: rest =>
      match rest.takeWhile isNameChar, rest.dropWhile isNameChar with
      | [], _ => Option.none
      | nm, rest2 =>
        match parseAttrList (rest2.length + 1) rest2 with
        | Option.none => Option.none
        | some (attrs, rest3) =>
          match rest3 with
          | '/' :: '>' :: rest4 => some (.mk ⟨nm⟩ attrs "" [] "", rest4)
          | '>' :: rest4 =>
            match parseContent fuel rest4 with
            | Option.none => Option.none
            | some (text, children, rest5) =>
              match rest5 with
              | '<' :: '/' :: rest6 =>
                if nm.isPrefixOf rest6 ∧ (rest6.drop nm.length).headD ' ' = '>' then
                  some (.mk ⟨nm⟩ attrs text children "", (rest6.drop nm.length).drop 1)
                else Option.none
              | _ => Option.none
          | _ => Option.none
    | _ => Option.none

/-- Parse mixed content up to an end tag `</` or the end of input:
leading text, then children, each child keeping the text that follows
it as its tail. -/
def parseContent : Nat → List Char → Option (String × List Xml × List Char)
  | 0, _ => Option.none
  | fuel + 1, cs =>
    match parseText (cs.length + 1) cs with
    | Option.none => Option.none
    | some (text, rest) =>
      match rest with
      | '<' :: '/' :: rest2 => some (⟨text⟩, [], '<' :: '/' :: rest2)
      | '<' :: rest2 =>
        match parseElement fuel ('<' :: rest2) with
        | Option.none => Option.none
        | some (child, rest3) =>
          match parseContent fuel rest3 with
          | Option.none => Option.none
          | some (tailText, children, rest4) =>
            some (⟨text⟩, child.setTail tailText :: children, rest4)
      | _ => Option.none

end

/-- Drop characters up to and including the first `?>`, to skip an XML
declaration or processing instruction. -/
def dropPastPiClose : List Char → List Char
  | [] => []
  | '?' :: '>' :: rest => rest
  | _ :: rest => dropPastPiClose rest

/-- Model of `ET.fromstring`: skip an optional XML declaration and
surrounding whitespace, parse exactly one element, and require nothing
but whitespace after it.  Ill-formed or incomplete input gives
`Option.none`, standing for `ET.ParseError`. -/
def ET_fromstring (s : String) : Option Xml :=
  let cs := s.toList.dropWhile isSpaceChar
  let cs := if "<?".toList.isPrefixOf cs then dropPastPiClose (cs.drop 2) else cs
  let cs := cs.dropWhile isSpaceChar
  match parseElement (cs.length + 1) cs with
  | some (x, rest) => if rest.dropWhile isSpaceChar = [] then some x else Option.none
  | Option.none => Option.none

/-- Escaping applied by `ET.tostring` to character data. -/
def escapeCdata (s : String) : String :=
  ⟨s.toList.flatMap (fun c =>
    if c = '&' then "&amp;".toList
    else if c = '<' then "&lt;".toList
    else if c = '>' then "&gt;".toList
    else [c])⟩

/-- Escaping applied by `ET.tostring` to attribute values. -/
def escapeAttrib (s : String) : String :=
  ⟨s.toList.flatMap (fun c =>
    if c = '&' then "&amp;".toList
    else if c = '<' then "&lt;".toList
    else if c = '>' then "&gt;".toList
    else if c = '"' then "&quot;".toList
    else [c])⟩

mutual

/-- Serialization of one element as `ET.tostring` writes it: short form
`<tag attrs />` when the element has no text and no children, long form
with text, children, and end tag otherwise; the tail follows. -/
def serializeXml : Xml → String
  | .mk tag attrs text children tail =>
    "<" ++ tag ++ serializeAttrs attrs ++
    (if text = "" ∧ children.isEmpty then " />"
     else ">" ++ escapeCdata text ++ serializeChildren children ++ "</" ++ tag ++ ">")
    ++ escapeCdata tail

def serializeAttrs : List (String × String) → String
  | [] => ""
  | (k, v) :: rest => " " ++ k ++ "=\"" ++ escapeAttrib v ++ "\"" ++ serializeAttrs rest

def serializeChildren : List Xml → String
  | [] => ""
  | x :: xs => serializeXml x ++ serializeChildren xs

end

/-- Model of `ET.tostring(elem, 'utf-8')`: the serialized element (for
the `utf-8` encoding `ElementTree` emits no XML declaration). -/
def ET_tostring (x : Xml) : String :=
  serializeXml x

/-- The `children` argument of `_build_xml`: `None`, a list (each
element converted separately), or a single value. -/
inductive BuildArg where
  | noneArg
  | listArg (l : List PyValue)
  | single (v : PyValue)

/-- `XmlInterfaceBase._build_xml`: construct an element with a given
tag, optional `val` attribute, and children converted by
`_from_value`. -/
def _build_xml (tag : String) (val : Option String) (children : BuildArg) :
    Except String Xml :=
  let attribs := match val with
    | some s => [("val", s)]
    | Option.none => []
  match children with
  | .noneArg => .ok (.mk tag attribs "" [] "")
  | .listArg l =>
    match fromValueList l with
    | .ok cs => .ok (.mk tag attribs "" cs "")
    | .error e => .error e
  | .single v =>
    match _from_value v with
    | .ok c => .ok (.mk tag attribs "" [c] "")
    | .error e => .error e

/-- `XmlInterface86.add`: the XML string for the `Add` command, built
from `((cmd, -1), (state, True))` and serialized with the default
`utf-8` encoding. -/
def add (cmd : String) (state : PyValue) : Except String String :=
  match _build_xml "call" (some "Add")
      (.single (.tuple [.tuple [.str cmd, .int (-1)], .tuple [state, .bool true]])) with
  | .ok x => .ok (ET_tostring x)
  | .error e => .error e

/-- Effect of one child on the pending `value` result: a `value` child
is decoded by `_to_response` and becomes the new pending result (the
last `value` child wins), any other child leaves it unchanged. -/
def scanValue (x : Xml) (val : Option Result) : Except String (Option Result) :=
  if x.tag = "value" then
    match _to_response x with
    | .ok r => .ok (some r)
    | .error e => .error e
  else .ok val

/-- Effect of one child on the accumulated message list: a `message`
child is decoded by `_to_value` and appended, any other child leaves
the list unchanged (`feedback` children are recognized but ignored). -/
def scanMsgs (x : Xml) (msgs : List PyValue) : Except String (List PyValue) :=
  if x.tag = "message" then
    match _to_value x with
    | .ok v => .ok (msgs ++ [v])
    | .error e => .error e
  else .ok msgs

/-- Pair up the two per-child effects, the `value` effect's exception
taking precedence (it is raised first in the loop body). -/
def zipExcept (a : Except String (Option Result))
    (b : Except String (List PyValue)) :
    Except String (Option Result × List PyValue) :=
  match a, b with
  | .ok x, .ok y => .ok (x, y)
  | .error e, _ => .error e
  | .ok _, .error e => .error e

/-- The scanning loop of `raw_response` over the synthetic root's
children, in document order; any decode exception propagates (the
`value` check of a child runs before its `message` check). -/
def scanResponses :
    List Xml → Option Result → List PyValue →
    Except String (Option Result × List PyValue)
  | [], val, msgs => .ok (val, msgs)
  | x :: xs, val, msgs =>
    match zipExcept (scanValue x val) (scanMsgs x msgs) with
    | .ok (val2, msgs2) => scanResponses xs val2 msgs2
    | .error e => .error e

/-- Model of `'\n\n'.join(msgs)`: `str.join` raises `TypeError` when an
element is not a string. -/
def joinMsgs (msgs : List PyValue) : Except String String :=
  match msgs.mapM (fun v =>
      match v with
      | .str s => (.ok s : Except String String)
      | _ => .error "TypeError: sequence item is not str") with
  | .ok ss => .ok (String.intercalate "\n\n" ss)
  | .error e => .error e

/-- Processing of a successfully parsed synthetic root: scan the
children; when a `value` node was seen, append the joined messages to
its message field and return it, otherwise return `None`. -/
def processRoot (root : Xml) : Except String (Option Result) :=
  match scanResponses root.children Option.none [] with
  | .error e => .error e
  | .ok (Option.none, _) => .ok Option.none
  | .ok (some r, msgs) =>
    match joinMsgs msgs with
    | .ok j => .ok (some (r.addMsg j))
    | .error e => .error e

/-- `XmlInterface86.raw_response`: unescape the buffer, wrap it in a
synthetic `coqtoproot` element, and parse; a parse failure returns
`None` (modelled `.ok Option.none`).  Then scan the children for
`value` and `message` nodes; when a `value` was seen, append the
joined messages to its message field and return it, otherwise return
`None`.  Any exception from decoding is `.error`. -/
def raw_response (data : String) : Except String (Option Result) :=
  match ET_fromstring ("<coqtoproot>" ++ _unescape data ++ "</coqtoproot>") with
  | Option.none => .ok Option.none
  | some root => processRoot root

/-- The prefix of the first `i` bytes of a buffer (`B[:i]`). -/
def takePrefix (s : String) (i : Nat) : String :=
  ⟨s.toList.take i⟩

/-- The implementations the version dispatcher can return. -/
inductive Interface where
  | xmlInterface86

/-- Split a character list at every `'.'`, keeping empty pieces, as
Python `str.split('.')` does. -/
def splitDots : List Char → List (List Char)
  | [] => [[]]
  | c :: cs =>
    match splitDots cs with
    | [] => [[]]
    | p :: ps => if c = '.' then [] :: p :: ps else (c :: p) :: ps

/-- Normalization of one version component:
`int(re.match('[0-9]+', v).group(0))` — the leading run of digits, or
an `AttributeError` when the component does not start with a digit. -/
def versionComponent (p : List Char) : Except String Nat :=
  match p.takeWhile Char.isDigit with
  | [] => .error "AttributeError: NoneType object has no attribute group"
  | ds =>
    match parseDigitsAcc ds 0 with
    | some n => .ok n
    | Option.none => .error "AttributeError: NoneType object has no attribute group"

/-- The normalized version tuple computed by `XmlInterface`: replace
`pl` by `.`, split on `.`, take each component's leading digits, and
append zeros up to three components (a longer tuple is kept as is,
since `(0,) * (3 - len)` is empty then). -/
def XmlInterface_versions (version : String) : Except String (List Nat) :=
  match (splitDots (pyReplace version.toList "pl".toList ".".toList)).mapM
      versionComponent with
  | .ok nums => .ok (nums ++ List.replicate (3 - nums.length) 0)
  | .error e => .error e

/-- Python lexicographic `<` on integer tuples. -/
def tupleLt : List Nat → List Nat → Bool
  | [], [] => false
  | [], _ :: _ => true
  | _ :: _, [] => false
  | a :: as, b :: bs => a < b || (a == b && tupleLt as bs)

/-- Python lexicographic `<=` on integer tuples. -/
def tupleLe : List Nat → List Nat → Bool
  | [], _ => true
  | _ :: _, [] => false
  | a :: as, b :: bs => a < b || (a == b && tupleLe as bs)

/-- The `XmlInterface` dispatcher: normalize the version string and
return the 8.6 implementation when `(8,6,0) <= versions < (8,7,0)`,
otherwise raise `ValueError("Invalid version: ...")`. -/
def XmlInterface (version : String) : Except String Interface :=
  match XmlInterface_versions version with
  | .error e => .error e
  | .ok versions =>
    if tupleLe [8, 6, 0] versions && tupleLt versions [8, 7, 0] then
      .ok .xmlInterface86
    else
      .error ("Invalid version: " ++ version)

/-! ## Decimal conversion lemmas -/

theorem parseDigitsAcc_append (l1 l2 : List Char) (acc : Nat) :
    parseDigitsAcc (l1 ++ l2) acc =
      match parseDigitsAcc l1 acc with
      | some a => parseDigitsAcc l2 a
      | Option.none => Option.none := by
  induction l1 generalizing acc with
  | nil => rfl
  | cons c cs ih =>
    simp only [List.cons_append, parseDigitsAcc]
    cases digitVal c <;> simp [ih]

theorem digitVal_digitChar (d : Nat) (h : d < 10) :
    digitVal (Nat.digitChar d) = some d := by
  interval_cases d <;> rfl

theorem digitChar_not_sign (d : Nat) (h : d < 10) :
    Nat.digitChar d ≠ '-' ∧ Nat.digitChar d ≠ '+' := by
  interval_cases d <;> exact ⟨by decide, by decide⟩

theorem natDigitsAux_head (fuel n : Nat) (h : 0 < fuel) :
    ∃ d cs, natDigitsAux fuel n = Nat.digitChar d :: cs ∧ d < 10 := by
  induction fuel generalizing n with
  | zero => omega
  | succ f ih =>
    by_cases hn : n < 10
    · exact ⟨n, [], by simp [natDigitsAux, hn], hn⟩
    · cases f with
      | zero =>
        refine ⟨n % 10, [], ?_, Nat.mod_lt _ (by norm_num)⟩
        simp [natDigitsAux, hn]
      | succ f2 =>
        obtain ⟨d, cs, heq, hd⟩ := ih (n / 10) (Nat.succ_pos _)
        refine ⟨d, cs ++ [Nat.digitChar (n % 10)], ?_, hd⟩
        rw [natDigitsAux, if_neg hn, heq]
        simp

theorem parseDigitsAcc_natDigitsAux (fuel : Nat) :
    ∀ n acc, n < 10 ^ fuel →
      ∃ k, parseDigitsAcc (natDigitsAux fuel n) acc = some (acc * 10 ^ k + n) := by
  induction fuel with
  | zero =>
    intro n acc h
    refine ⟨0, ?_⟩
    have : n = 0 := by simpa using h
    subst this
    simp [natDigitsAux, parseDigitsAcc]
  | succ f ih =>
    intro n acc h
    by_cases hn : n < 10
    · refine ⟨1, ?_⟩
      simp [natDigitsAux, hn, parseDigitsAcc, digitVal_digitChar n hn]
      ring_nf
    · have hdiv : n / 10 < 10 ^ f := by
        rw [Nat.div_lt_iff_lt_mul (by norm_num : (0:Nat) < 10)]
        calc n < 10 ^ (f + 1) := h
          _ = 10 ^ f * 10 := by ring
      obtain ⟨k, hk⟩ := ih (n / 10) acc hdiv
      refine ⟨k + 1, ?_⟩
      rw [natDigitsAux]
      simp only [hn, if_false]
      rw [parseDigitsAcc_append, hk]
      simp [parseDigitsAcc, digitVal_digitChar (n % 10) (Nat.mod_lt _ (by norm_num))]
      have hmod : 10 * (n / 10) + n % 10 = n := Nat.div_add_mod n 10
      ring_nf
      omega

theorem parseNatDigits_pyNatStr (n : Nat) :
    parseNatDigits (pyNatStr n).toList = some n := by
  obtain ⟨d, cs, heq, hd⟩ := natDigitsAux_head (n + 1) n (Nat.succ_pos _)
  have hlt : n < 10 ^ (n + 1) := by
    calc n < 2 ^ n := Nat.lt_two_pow n
      _ ≤ 10 ^ n := Nat.pow_le_pow_left (by norm_num) n
      _ ≤ 10 ^ (n + 1) := Nat.pow_le_pow_right (by norm_num) (Nat.le_succ n)
  obtain ⟨k, hk⟩ := parseDigitsAcc_natDigitsAux (n + 1) n 0 hlt
  have hlist : (pyNatStr n).toList = natDigitsAux (n + 1) n := rfl
  rw [hlist, heq]
  rw [heq] at hk
  simpa [parseNatDigits] using hk

theorem pyNatStr_head (n : Nat) :
    ∃ d cs, (pyNatStr n).toList = Nat.digitChar d :: cs ∧ d < 10 :=
  natDigitsAux_head (n + 1) n (Nat.succ_pos _)

theorem pyint_pyIntStr (n : Int) : pyint (pyIntStr n) = .ok n := by
  by_cases hneg : n < 0
  · have hstr : (pyIntStr n).toList = '-' :: (pyNatStr n.natAbs).toList := by
      rw [pyIntStr, if_pos hneg]
      cases pyNatStr n.natAbs with
      | mk data => rfl
    rw [pyint]
    simp only [hstr]
    have hp : parseNatDigits (pyNatStr n.natAbs).data = some n.natAbs :=
      parseNatDigits_pyNatStr n.natAbs
    simp [hp]
    rw [abs_of_nonpos (le_of_lt hneg)]
    ring
  · obtain ⟨d, cs, heq, hd⟩ := pyNatStr_head n.natAbs
    obtain ⟨h1, h2⟩ := digitChar_not_sign d hd
    have hstr : (pyIntStr n).toList = Nat.digitChar d :: cs := by
      rw [pyIntStr, if_neg hneg]
      exact heq
    have hparse : parseNatDigits (Nat.digitChar d :: cs) = some n.natAbs := by
      have := parseNatDigits_pyNatStr n.natAbs
      rwa [heq] at this
    rw [pyint]
    simp only [hstr]
    simp [h1, h2, hparse]
    omega

/-! ## Round-trip of the codec (claim C1) -/

theorem isNoneV_eq_true {v : PyValue} (h : isNoneV v = true) : v = .none := by
  cases v <;> simp_all [isNoneV]

theorem isNoneV_eq_false {v : PyValue} (h : isNoneV v = false) : v ≠ .none := by
  cases v <;> simp_all [isNoneV]

theorem from_value_option_ne (v : PyValue) (hv : v ≠ .none) :
    _from_value (.option v) = Except.bind (_from_value v)
      (fun x => .ok (.mk "option" [("val", "some")] "" [x] "")) := by
  cases v <;> first
    | exact absurd rfl hv
    | rfl

theorem encodable_option_ne (v : PyValue) (hv : v ≠ .none) :
    encodable (.option v) = encodable v := by
  cases v <;> first
    | exact absurd rfl hv
    | rfl

theorem fromValueList_roundtrip (vs : List PyValue)
    (IH : ∀ v ∈ vs, encodable v = true →
      ∃ x, _from_value v = .ok x ∧ _to_value x = .ok v)
    (henc : encodableList vs = true) :
    ∃ xs, fromValueList vs = .ok xs ∧ toValueList xs = .ok vs := by
  induction vs with
  | nil => exact ⟨[], rfl, rfl⟩
  | cons v rest ih =>
    rw [encodableList, Bool.and_eq_true] at henc
    obtain ⟨x, hx1, hx2⟩ := IH v (List.mem_cons_self v rest) henc.1
    obtain ⟨xs, hxs1, hxs2⟩ :=
      ih (fun w hw hew => IH w (List.mem_cons_of_mem v hw) hew) henc.2
    refine ⟨x :: xs, ?_, ?_⟩
    · show Except.bind (_from_value v)
        (fun y => Except.bind (fromValueList rest)
          (fun ys => .ok (y :: ys))) = _
      rw [hx1, hxs1]
      rfl
    · show consOf (_to_value x) (toValueList xs) = _
      rw [hx2, hxs2]
      rfl

theorem roundtrip_aux (N : Nat) :
    ∀ v : PyValue, sizeOf v < N → encodable v = true →
      ∃ x, _from_value v = .ok x ∧ _to_value x = .ok v := by
  induction N with
  | zero => omega
  | succ N ih =>
    intro v hsz henc
    cases v with
    | none => exact absurd henc (by simp [encodable])
    | bool b => cases b <;> exact ⟨_, rfl, rfl⟩
    | int n =>
      refine ⟨.mk "int" [] (pyIntStr n) [] "", rfl, ?_⟩
      have h : _to_value (.mk "int" [] (pyIntStr n) [] "") =
          intOf (pyint (pyIntStr n)) := by
        simp [_to_value]
      rw [h, pyint_pyIntStr]
      rfl
    | str s =>
      refine ⟨.mk "string" [] s [] "", rfl, ?_⟩
      have h : _to_value (.mk "string" [] s [] "") = .ok (.str (s ++ "")) := by
        simp only [_to_value]
        rfl
      rw [h, String.append_empty]
    | list vs =>
      have hsz2 : sizeOf vs < N := by
        have : sizeOf (PyValue.list vs) = 1 + sizeOf vs := by simp
        omega
      have henc2 : encodableList vs = true := henc
      obtain ⟨xs, h1, h2⟩ := fromValueList_roundtrip vs
        (fun w hw hew => ih w (by
          have := List.sizeOf_lt_of_mem hw
          omega) hew) henc2
      refine ⟨.mk "list" [] "" xs "", ?_, ?_⟩
      · have h : _from_value (.list vs) = Except.bind (fromValueList vs)
            (fun cs => .ok (.mk "list" [] "" cs "")) := by
          simp only [_from_value]
          rfl
        rw [h, h1]
        rfl
      · have h : _to_value (.mk "list" [] "" xs "") = listOf (toValueList xs) := by
          simp [_to_value]
        rw [h, h2]
        rfl
    | tuple vs =>
      match vs with
      | [] => exact ⟨_, rfl, rfl⟩
      | [a] => exact absurd henc (by simp [encodable])
      | [a, b] =>
        rw [show encodable (.tuple [a, b]) = (encodable a && encodable b) from rfl,
          Bool.and_eq_true] at henc
        have hsa : sizeOf a < N := by
          have h1 : sizeOf (PyValue.tuple [a, b]) = 1 + sizeOf [a, b] := by simp
          have h2 : sizeOf [a, b] = 1 + sizeOf a + (1 + sizeOf b + 1) := by simp
          omega
        have hsb : sizeOf b < N := by
          have h1 : sizeOf (PyValue.tuple [a, b]) = 1 + sizeOf [a, b] := by simp
          have h2 : sizeOf [a, b] = 1 + sizeOf a + (1 + sizeOf b + 1) := by simp
          omega
        obtain ⟨xa, ha1, ha2⟩ := ih a hsa henc.1
        obtain ⟨xb, hb1, hb2⟩ := ih b hsb henc.2
        refine ⟨.mk "pair" [] "" [xa, xb] "", ?_, ?_⟩
        · have h : _from_value (.tuple [a, b]) = Except.bind (_from_value a)
              (fun ya => Except.bind (_from_value b)
                (fun yb => .ok (.mk "pair" [] "" [ya, yb] ""))) := by
            simp only [_from_value]
            rfl
          rw [h, ha1, hb1]
          rfl
        · have h : _to_value (.mk "pair" [] "" [xa, xb] "") =
              tupleOf (toValueList [xa, xb]) := by
            simp [_to_value]
          have h2 : toValueList [xa, xb] =
              consOf (_to_value xa) (consOf (_to_value xb) (.ok [])) := by
            simp [toValueList]
          rw [h, h2, ha2, hb2]
          rfl
      | a :: b :: c :: rest => exact absurd henc (by simp [encodable])
    | option val =>
      cases hn : isNoneV val with
      | true =>
        rw [isNoneV_eq_true hn]
        exact ⟨_, rfl, rfl⟩
      | false =>
        have hne := isNoneV_eq_false hn
        rw [encodable_option_ne val hne] at henc
        have hsv : sizeOf val < N := by
          have : sizeOf (PyValue.option val) = 1 + sizeOf val := by simp
          omega
        obtain ⟨x, h1, h2⟩ := ih val hsv henc
        refine ⟨.mk "option" [("val", "some")] "" [x] "", ?_, ?_⟩
        · rw [from_value_option_ne val hne, h1]
          rfl
        · have h : _to_value (.mk "option" [("val", "some")] "" [x] "") =
              wrapOf .option (_to_value x) := by
            simp only [_to_value]
            rfl
          rw [h, h2]
          rfl
    | inl val =>
      have hsv : sizeOf val < N := by
        have : sizeOf (PyValue.inl val) = 1 + sizeOf val := by simp
        omega
      obtain ⟨x, h1, h2⟩ := ih val hsv henc
      refine ⟨.mk "union" [("val", "in_l")] "" [x] "", ?_, ?_⟩
      · have h : _from_value (.inl val) = Except.bind (_from_value val)
            (fun x => .ok (.mk "union" [("val", "in_l")] "" [x] "")) := by
          simp only [_from_value]
          rfl
        rw [h, h1]
        rfl
      · have h : _to_value (.mk "union" [("val", "in_l")] "" [x] "") =
            wrapOf .inl (_to_value x) := by
          simp only [_to_value]
          rfl
        rw [h, h2]
        rfl
    | inr val =>
      have hsv : sizeOf val < N := by
        have : sizeOf (PyValue.inr val) = 1 + sizeOf val := by simp
        omega
      obtain ⟨x, h1, h2⟩ := ih val hsv henc
      refine ⟨.mk "union" [("val", "in_r")] "" [x] "", ?_, ?_⟩
      · have h : _from_value (.inr val) = Except.bind (_from_value val)
            (fun x => .ok (.mk "union" [("val", "in_r")] "" [x] "")) := by
          simp only [_from_value]
          rfl
        rw [h, h1]
        rfl
      · have h : _to_value (.mk "union" [("val", "in_r")] "" [x] "") =
            wrapOf .inr (_to_value x) := by
          simp only [_to_value]
          rfl
        rw [h, h2]
        rfl
    | stateid n =>
      refine ⟨.mk "state_id" [("val", pyIntStr n)] "" [] "", rfl, ?_⟩
      have h : _to_value (.mk "state_id" [("val", pyIntStr n)] "" [] "") =
          stateidAttr (some (pyIntStr n)) := by
        simp only [_to_value]
        rfl
      rw [h]
      show (match pyint (pyIntStr n) with
        | .ok k => .ok (.stateid k)
        | .error e => .error e : Except String PyValue) = _
      rw [pyint_pyIntStr]
    | goal a b c => exact absurd henc (by simp [encodable])
    | goals a b c d => exact absurd henc (by simp [encodable])
    | evar a => exact absurd henc (by simp [encodable])
    | optionState a b c d => exact absurd henc (by simp [encodable])
    | optionValue a => exact absurd henc (by simp [encodable])
    | status a b c d => exact absurd henc (by simp [encodable])
    | coqInfo a b c d => exact absurd henc (by simp [encodable])

/-- C1: for every Value Model instance drawn from the shapes the encoder
handles (unit, booleans, integers, strings, lists of such values,
two-element pairs, Option none/some, Inl/Inr, and StateId), decoding
the tree produced by encoding the value yields the value back:
`_to_value (_from_value v) = v`. -/
theorem claim_C1_roundtrip (v : PyValue) (h : encodable v = true) :
    ∃ x, _from_value v = .ok x ∧ _to_value x = .ok v :=
  roundtrip_aux (sizeOf v + 1) v (Nat.lt_succ_self _) h

/-- C1 witness: the round-trip theorem applied to a concrete nested
value exercising every encodable shape. -/
theorem claim_C1_roundtrip_witness :
    encodable (.tuple [.str "ab",
      .list [.int (-3), .option (.inl (.bool true)), .option .none,
             .inr (.stateid 7), .tuple []]]) = true ∧
    ∃ x, _from_value (.tuple [.str "ab",
      .list [.int (-3), .option (.inl (.bool true)), .option .none,
             .inr (.stateid 7), .tuple []]]) = .ok x ∧
      _to_value x = .ok (.tuple [.str "ab",
      .list [.int (-3), .option (.inl (.bool true)), .option .none,
             .inr (.stateid 7), .tuple []]]) :=
  ⟨rfl, claim_C1_roundtrip _ rfl⟩

/-! ## Unescaping (claim C9) -/

theorem pyReplaceFuel_no_occurrence (fuel : Nat) :
    ∀ s pat rep, s.length < fuel → containsSub pat s = false →
      pyReplaceFuel fuel s pat rep = s := by
  induction fuel with
  | zero => intro s pat rep h; omega
  | succ f ih =>
    intro s pat rep hlen hocc
    cases s with
    | nil => rfl
    | cons c rest =>
      rw [containsSub, Bool.or_eq_false_iff] at hocc
      rw [pyReplaceFuel, if_neg]
      · rw [ih rest pat rep (by simpa using hlen) hocc.2]
      · intro hand
        rw [hocc.1] at hand
        exact absurd hand.2 (by simp)

theorem pyReplace_no_occurrence (s pat rep : List Char)
    (h : containsSub pat s = false) : pyReplace s pat rep = s :=
  pyReplaceFuel_no_occurrence (s.length + 1) s pat rep (Nat.lt_succ_self _) h

/-- C9: for every byte string containing none of the four recognized
escape markers (`&nbsp;`, `&apos;`, `&#40;`, `&#41;`), `_unescape`
returns the byte string unchanged. -/
theorem claim_C9_unescape_identity (s : String)
    (h1 : containsSub "&nbsp;".toList s.toList = false)
    (h2 : containsSub "&apos;".toList s.toList = false)
    (h3 : containsSub "&#40;".toList s.toList = false)
    (h4 : containsSub "&#41;".toList s.toList = false) :
    _unescape s = s := by
  rw [_unescape]
  rw [pyReplace_no_occurrence _ _ _ h1, pyReplace_no_occurrence _ _ _ h2,
    pyReplace_no_occurrence _ _ _ h3, pyReplace_no_occurrence _ _ _ h4]
  cases s
  rfl

/-- C9 witness: a concrete marker-free byte string is unchanged. -/
theorem claim_C9_unescape_identity_witness :
    _unescape "Lemma foo. & <tag>" = "Lemma foo. & <tag>" :=
  claim_C9_unescape_identity "Lemma foo. & <tag>" rfl rfl rfl rfl

/-! ## Unsupported shapes (claim C8) -/

theorem isPrefixOf_append_self (l t : List Char) :
    List.isPrefixOf l (l ++ t) = true := by
  induction l with
  | nil => simp [List.isPrefixOf]
  | cons c cs ih => simp [List.isPrefixOf, ih]

theorem containsSub_nil_pat (l : List Char) : containsSub [] l = true := by
  cases l with
  | nil => rfl
  | cons c cs => simp [containsSub, List.isPrefixOf]

theorem containsSub_append_middle (pre pat suf : List Char) :
    containsSub pat (pre ++ (pat ++ suf)) = true := by
  induction pre with
  | nil =>
    cases pat with
    | nil => simpa using containsSub_nil_pat suf
    | cons c cs =>
      rw [List.nil_append, List.cons_append, containsSub]
      simp [List.isPrefixOf, isPrefixOf_append_self]
  | cons p ps ih =>
    rw [List.cons_append, containsSub, ih]
    simp

theorem to_value_unknown_tag (tag : String) (attrs : List (String × String))
    (text : String) (children : List Xml) (tail : String)
    (h : knownTag tag = false) :
    _to_value (.mk tag attrs text children tail) = .error (unexpectedMsg [] tag) := by
  simp only [knownTag, Bool.or_eq_false_iff, beq_eq_false_iff_ne, ne_eq] at h
  obtain ⟨⟨⟨⟨⟨⟨⟨⟨⟨⟨⟨⟨⟨⟨⟨⟨⟨h1, h2⟩, h3⟩, h4⟩, h5⟩, h6⟩, h7⟩, h8⟩, h9⟩, h10⟩,
    h11⟩, h12⟩, h13⟩, h14⟩, h15⟩, h16⟩, h17⟩, h18⟩ := h
  simp [_to_value, h1, h2, h3, h4, h5, h6, h7, h8, h9, h10, h11, h12, h13,
    h14, h15, h16, h17, h18]

/-- C8: encoding any value outside the closed encodable set (Python
`None` or one of the record namedtuples such as `Goal`, `Goals`,
`Status`) raises the `unexpected` error whose message names the
offending runtime type, and decoding any node whose tag is outside the
fixed vocabulary raises the `unexpected` error whose message names the
tag; neither direction silently coerces. -/
theorem claim_C8_unexpected_errors :
    (∀ v : PyValue, unencodableType v = true →
      _from_value v = .error (unexpectedMsg [] (pyTypeStr v)) ∧
      containsSub (pyTypeName v).toList
        (unexpectedMsg [] (pyTypeStr v)).toList = true) ∧
    (∀ x : Xml, knownTag x.tag = false →
      _to_value x = .error (unexpectedMsg [] x.tag) ∧
      containsSub x.tag.toList (unexpectedMsg [] x.tag).toList = true) := by
  constructor
  · intro v hv
    cases v with
    | none => exact ⟨rfl, rfl⟩
    | goal a b c => exact ⟨rfl, rfl⟩
    | goals a b c d => exact ⟨rfl, rfl⟩
    | evar a => exact ⟨rfl, rfl⟩
    | optionState a b c d => exact ⟨rfl, rfl⟩
    | optionValue a => exact ⟨rfl, rfl⟩
    | status a b c d => exact ⟨rfl, rfl⟩
    | coqInfo a b c d => exact ⟨rfl, rfl⟩
    | bool b => simp [unencodableType] at hv
    | int n => simp [unencodableType] at hv
    | str s => simp [unencodableType] at hv
    | list vs => simp [unencodableType] at hv
    | tuple vs => simp [unencodableType] at hv
    | option w => simp [unencodableType] at hv
    | inl w => simp [unencodableType] at hv
    | inr w => simp [unencodableType] at hv
    | stateid n => simp [unencodableType] at hv
  · intro x hx
    obtain ⟨tag, attrs, text, children, tail⟩ := x
    simp only [Xml.tag] at hx ⊢
    refine ⟨to_value_unknown_tag tag attrs text children tail hx, ?_⟩
    have h1 : unexpectedMsg [] tag = "Expected , but got " ++ tag := rfl
    have h2 : (("Expected , but got " : String) ++ tag).toList =
        "Expected , but got ".toList ++ tag.toList := by
      cases tag
      rfl
    rw [h1, h2]
    have h3 := containsSub_append_middle "Expected , but got ".toList tag.toList []
    simpa using h3

/-- C8 witness: the encoder error for a concrete `Goal` value and the
decoder error for a concrete unknown tag. -/
theorem claim_C8_unexpected_errors_witness :
    _from_value (.goal (.int 1) (.list []) (.str "G")) =
      .error "Expected , but got <class \x27Goal\x27>" ∧
    _to_value (.mk "bogus" [] "" [] "") = .error "Expected , but got bogus" :=
  ⟨(claim_C8_unexpected_errors.1 (.goal (.int 1) (.list []) (.str "G")) rfl).1,
   (claim_C8_unexpected_errors.2 (.mk "bogus" [] "" [] "") rfl).1⟩

/-! ## Pair decoding has no arity check (claim C10) -/

theorem toValueList_length (cs : List Xml) :
    ∀ vs, toValueList cs = .ok vs → vs.length = cs.length := by
  induction cs with
  | nil =>
    intro vs h
    cases h
    rfl
  | cons x xs ih =>
    intro vs h
    rw [toValueList] at h
    cases hx : _to_value x with
    | error e =>
      rw [hx] at h
      exact absurd h (by simp [consOf])
    | ok v =>
      rw [hx] at h
      cases hxs : toValueList xs with
      | error e =>
        rw [hxs] at h
        exact absurd h (by simp [consOf])
      | ok ws =>
        rw [hxs] at h
        simp [consOf] at h
        subst h
        simp [ih ws hxs]

theorem to_value_pair_node (x : Xml) (h : x.tag = "pair") :
    _to_value x = tupleOf (toValueList x.children) := by
  obtain ⟨tag, attrs, text, children, tail⟩ := x
  simp only [Xml.tag] at h
  subst h
  simp [_to_value, Xml.children]

theorem fromValueList_pairsBinary (vs : List PyValue)
    (IH : ∀ v ∈ vs, ∀ x, _from_value v = .ok x → pairsBinary x = true) :
    ∀ xs, fromValueList vs = .ok xs → pairsBinaryChildren xs = true := by
  induction vs with
  | nil =>
    intro xs h
    cases h
    rfl
  | cons v rest ih =>
    intro xs h
    rw [show fromValueList (v :: rest) = Except.bind (_from_value v)
        (fun y => Except.bind (fromValueList rest) (fun ys => .ok (y :: ys)))
      from by simp only [fromValueList]; rfl] at h
    cases hv : _from_value v with
    | error e =>
      rw [hv] at h
      exact absurd h (by simp [Except.bind])
    | ok y =>
      rw [hv] at h
      cases hrest : fromValueList rest with
      | error e =>
        rw [hrest] at h
        exact absurd h (by simp [Except.bind])
      | ok ys =>
        rw [hrest] at h
        simp [Except.bind] at h
        subst h
        rw [pairsBinaryChildren, Bool.and_eq_true]
        exact ⟨IH v (List.mem_cons_self v rest) y hv,
          ih (fun w hw => IH w (List.mem_cons_of_mem v hw)) ys hrest⟩

theorem from_value_pairsBinary_aux (N : Nat) :
    ∀ v : PyValue, sizeOf v < N → ∀ x, _from_value v = .ok x →
      pairsBinary x = true := by
  induction N with
  | zero => omega
  | succ N ih =>
    intro v hsz x hx
    cases v with
    | none => exact absurd hx (by simp [_from_value])
    | bool b =>
      cases b <;> (cases hx; rfl)
    | int n =>
      cases hx
      rfl
    | str s =>
      cases hx
      rfl
    | list vs =>
      rw [show _from_value (.list vs) = Except.bind (fromValueList vs)
          (fun cs => .ok (.mk "list" [] "" cs ""))
        from by simp only [_from_value]; rfl] at hx
      cases hvs : fromValueList vs with
      | error e =>
        rw [hvs] at hx
        exact absurd hx (by simp [Except.bind])
      | ok cs =>
        rw [hvs] at hx
        simp [Except.bind] at hx
        subst hx
        have hlist : pairsBinaryChildren cs = true :=
          fromValueList_pairsBinary vs
            (fun w hw y hy => ih w (by
              have h1 := List.sizeOf_lt_of_mem hw
              have h2 : sizeOf (PyValue.list vs) = 1 + sizeOf vs := by simp
              omega) y hy) cs hvs
        simp [pairsBinary, hlist]
    | tuple vs =>
      match vs with
      | [] =>
        cases hx
        rfl
      | [a] => exact absurd hx (by simp [_from_value])
      | a :: b :: rest =>
        rw [show _from_value (.tuple (a :: b :: rest)) =
            Except.bind (_from_value a)
              (fun ya => Except.bind (_from_value b)
                (fun yb => .ok (.mk "pair" [] "" [ya, yb] "")))
          from by simp only [_from_value]; rfl] at hx
        have hsa : sizeOf a < N := by
          have h1 : sizeOf (PyValue.tuple (a :: b :: rest)) =
              1 + sizeOf (a :: b :: rest) := by simp
          have h2 : sizeOf (a :: b :: rest) = 1 + sizeOf a + sizeOf (b :: rest) := by simp
          omega
        have hsb : sizeOf b < N := by
          have h1 : sizeOf (PyValue.tuple (a :: b :: rest)) =
              1 + sizeOf (a :: b :: rest) := by simp
          have h2 : sizeOf (a :: b :: rest) =
              1 + sizeOf a + (1 + sizeOf b + sizeOf rest) := by simp
          omega
        cases ha : _from_value a with
        | error e =>
          rw [ha] at hx
          exact absurd hx (by simp [Except.bind])
        | ok ya =>
          rw [ha] at hx
          cases hb : _from_value b with
          | error e =>
            rw [hb] at hx
            exact absurd hx (by simp [Except.bind])
          | ok yb =>
            rw [hb] at hx
            simp [Except.bind] at hx
            subst hx
            have h1 := ih a hsa ya ha
            have h2 := ih b hsb yb hb
            simp [pairsBinary, pairsBinaryChildren, h1, h2]
    | option val =>
      cases hn : isNoneV val with
      | true =>
        rw [isNoneV_eq_true hn] at hx
        cases hx
        rfl
      | false =>
        have hne := isNoneV_eq_false hn
        rw [from_value_option_ne val hne] at hx
        cases hv : _from_value val with
        | error e =>
          rw [hv] at hx
          exact absurd hx (by simp [Except.bind])
        | ok y =>
          rw [hv] at hx
          simp [Except.bind] at hx
          subst hx
          have h1 := ih val (by
            have : sizeOf (PyValue.option val) = 1 + sizeOf val := by simp
            omega) y hv
          simp [pairsBinary, pairsBinaryChildren, h1]
    | inl val =>
      rw [show _from_value (.inl val) = Except.bind (_from_value val)
          (fun y => .ok (.mk "union" [("val", "in_l")] "" [y] ""))
        from by simp only [_from_value]; rfl] at hx
      cases hv : _from_value val with
      | error e =>
        rw [hv] at hx
        exact absurd hx (by simp [Except.bind])
      | ok y =>
        rw [hv] at hx
        simp [Except.bind] at hx
        subst hx
        have h1 := ih val (by
          have : sizeOf (PyValue.inl val) = 1 + sizeOf val := by simp
          omega) y hv
        simp [pairsBinary, pairsBinaryChildren, h1]
    | inr val =>
      rw [show _from_value (.inr val) = Except.bind (_from_value val)
          (fun y => .ok (.mk "union" [("val", "in_r")] "" [y] ""))
        from by simp only [_from_value]; rfl] at hx
      cases hv : _from_value val with
      | error e =>
        rw [hv] at hx
        exact absurd hx (by simp [Except.bind])
      | ok y =>
        rw [hv] at hx
        simp [Except.bind] at hx
        subst hx
        have h1 := ih val (by
          have : sizeOf (PyValue.inr val) = 1 + sizeOf val := by simp
          omega) y hv
        simp [pairsBinary, pairsBinaryChildren, h1]
    | stateid n =>
      cases hx
      rfl
    | goal a b c => exact absurd hx (by simp [_from_value])
    | goals a b c d => exact absurd hx (by simp [_from_value])
    | evar a => exact absurd hx (by simp [_from_value])
    | optionState a b c d => exact absurd hx (by simp [_from_value])
    | optionValue a => exact absurd hx (by simp [_from_value])
    | status a b c d => exact absurd hx (by simp [_from_value])
    | coqInfo a b c d => exact absurd hx (by simp [_from_value])

/-- C10: decoding a `pair` node performs no arity check — for every
`pair` node whose children decode successfully, `_to_value` returns the
tuple of all decoded children, whatever their number — while the
encoder only ever emits `pair` nodes with exactly two children. -/
theorem claim_C10_pair_no_arity_check :
    (∀ (x : Xml) (vs : List PyValue), x.tag = "pair" →
      toValueList x.children = .ok vs →
      _to_value x = .ok (.tuple vs) ∧ vs.length = x.children.length) ∧
    (∀ (v : PyValue) (x : Xml), _from_value v = .ok x → pairsBinary x = true) := by
  constructor
  · intro x vs htag hdec
    refine ⟨?_, toValueList_length x.children vs hdec⟩
    rw [to_value_pair_node x htag, hdec]
    rfl
  · intro v x hx
    exact from_value_pairsBinary_aux (sizeOf v + 1) v (Nat.lt_succ_self _) x hx

/-- C10 witness: a `pair` node with three children decodes to a
3-tuple, and the encoder applied to a 2-tuple emits a binary pair. -/
theorem claim_C10_pair_no_arity_check_witness :
    _to_value (.mk "pair" [] ""
      [.mk "unit" [] "" [] "", .mk "bool" [("val", "true")] "" [] "",
       .mk "unit" [] "" [] ""] "") =
      .ok (.tuple [.tuple [], .bool true, .tuple []]) ∧
    pairsBinary (.mk "pair" [] ""
      [.mk "unit" [] "" [] "", .mk "bool" [("val", "true")] "" [] ""] "") = true :=
  ⟨(claim_C10_pair_no_arity_check.1 (.mk "pair" [] ""
      [.mk "unit" [] "" [] "", .mk "bool" [("val", "true")] "" [] "",
       .mk "unit" [] "" [] ""] "") [.tuple [], .bool true, .tuple []] rfl rfl).1,
   claim_C10_pair_no_arity_check.2 (.tuple [.tuple [], .bool true])
     (.mk "pair" [] ""
       [.mk "unit" [] "" [] "", .mk "bool" [("val", "true")] "" [] ""] "") rfl⟩

/-! ## Response decoding (claim C3) -/

theorem to_response_unfold (xml : Xml) (htag : xml.tag = "value") :
    _to_response xml =
      match xml.get "val" with
      | some "good" => goodBranch xml.children
      | some "fail" => failBranch xml
      | v => .error (unexpectedMsg ["good", "fail"] (optStr v)) := by
  rw [_to_response, if_neg]
  simp [htag]

theorem match_val_other (v : String) (hg : v ≠ "good") (hf : v ≠ "fail")
    (A B : Except String Result) :
    (match (some v : Option String) with
     | some "good" => A
     | some "fail" => B
     | w => .error (unexpectedMsg ["good", "fail"] (optStr w))) =
      .error (unexpectedMsg ["good", "fail"] v) := by
  split <;> simp_all [optStr]

/-- C3: on a node tagged `value`, `val="good"` yields `Ok` of the
decoded first child with empty message; `val="fail"` yields `Err` whose
message is the concatenated text content and whose location is
`(int(loc_s), int(loc_e))` with each absent attribute defaulting to
`-1` (in particular `(-1, -1)` when both are absent); any other `val`
attribute value raises an error. -/
theorem claim_C3_to_response (xml : Xml) (htag : xml.tag = "value") :
    (∀ c cs v, xml.get "val" = some "good" → xml.children = c :: cs →
      _to_value c = .ok v → _to_response xml = .ok (.ok v "")) ∧
    (∀ s e, xml.get "val" = some "fail" →
      locAttr (xml.get "loc_s") = .ok s → locAttr (xml.get "loc_e") = .ok e →
      _to_response xml = .ok (.err (itertext xml) (s, e) false)) ∧
    (xml.get "val" = some "fail" → xml.get "loc_s" = Option.none →
      xml.get "loc_e" = Option.none →
      _to_response xml = .ok (.err (itertext xml) (-1, -1) false)) ∧
    (∀ v, xml.get "val" = some v → v ≠ "good" → v ≠ "fail" →
      _to_response xml = .error (unexpectedMsg ["good", "fail"] v)) := by
  refine ⟨?_, ?_, ?_, ?_⟩
  · intro c cs v hval hch hdec
    rw [to_response_unfold xml htag, hval, hch]
    rw [goodBranch, hdec]
    rfl
  · intro s e hval hs he
    rw [to_response_unfold xml htag, hval]
    rw [failBranch, hs, he]
    rfl
  · intro hval hs he
    rw [to_response_unfold xml htag, hval]
    rw [failBranch, hs, he]
    rfl
  · intro v hval hg hf
    rw [to_response_unfold xml htag, hval]
    exact match_val_other v hg hf _ _

/-- C3 witness: the theorem applied to a concrete `fail` node with no
location attributes, a concrete `good` node, and a concrete unknown
`val` value. -/
theorem claim_C3_to_response_witness :
    _to_response (.mk "value" [("val", "fail")] "boom" [] "") =
      .ok (.err "boom" (-1, -1) false) ∧
    _to_response (.mk "value" [("val", "good")]
      "" [.mk "unit" [] "" [] ""] "") = .ok (.ok (.tuple []) "") ∧
    _to_response (.mk "value" [("val", "maybe")] "" [] "") =
      .error "Expected good or fail, but got maybe" :=
  ⟨(claim_C3_to_response (.mk "value" [("val", "fail")] "boom" [] "")
      rfl).2.2.1 rfl rfl rfl,
   (claim_C3_to_response (.mk "value" [("val", "good")]
      "" [.mk "unit" [] "" [] ""] "") rfl).1
      (.mk "unit" [] "" [] "") [] (.tuple []) rfl rfl rfl,
   (claim_C3_to_response (.mk "value" [("val", "maybe")] "" [] "")
      rfl).2.2.2 "maybe" rfl (by decide) (by decide)⟩

/-! ## Version dispatch (claims C5, C6) -/

/-- C5: `XmlInterface` returns the 8.6 implementation exactly when the
normalized version tuple lies in the half-open range
`[(8,6,0), (8,7,0))` under Python tuple comparison — in particular
`"8.6.1"` resolves to it — and otherwise fails with an error naming the
unsupported version string, as `"8.8.0"` and `"9.0.0"` do. -/
theorem claim_C5_version_dispatch :
    (∀ (version : String) (t : List Nat),
      XmlInterface_versions version = .ok t →
      ((tupleLe [8, 6, 0] t && tupleLt t [8, 7, 0]) = true →
        XmlInterface version = .ok .xmlInterface86) ∧
      ((tupleLe [8, 6, 0] t && tupleLt t [8, 7, 0]) = false →
        XmlInterface version = .error ("Invalid version: " ++ version))) ∧
    XmlInterface "8.6.1" = .ok .xmlInterface86 ∧
    XmlInterface "8.8.0" = .error "Invalid version: 8.8.0" ∧
    XmlInterface "9.0.0" = .error "Invalid version: 9.0.0" := by
  refine ⟨?_, rfl, rfl, rfl⟩
  intro version t hver
  constructor
  · intro hin
    rw [XmlInterface, hver]
    show (if (tupleLe [8, 6, 0] t && tupleLt t [8, 7, 0]) = true then
        Except.ok Interface.xmlInterface86
      else Except.error ("Invalid version: " ++ version)) = _
    rw [if_pos hin]
  · intro hout
    rw [XmlInterface, hver]
    show (if (tupleLe [8, 6, 0] t && tupleLt t [8, 7, 0]) = true then
        Except.ok Interface.xmlInterface86
      else Except.error ("Invalid version: " ++ version)) = _
    rw [if_neg]
    simp [hout]

/-- C5 witness: the general dispatch equivalence applied to the
concrete version string `"8.6.1"`. -/
theorem claim_C5_version_dispatch_witness :
    XmlInterface "8.6.1" = .ok .xmlInterface86 :=
  (claim_C5_version_dispatch.1 "8.6.1" [8, 6, 1] rfl).1 rfl

/-- C6 counterexample: the claim says normalization right-pads with
zeros to exactly three components for every version string, but a
four-component version string keeps all four components. -/
theorem claim_C6_counterexample :
    XmlInterface_versions "8.6.1.5" = .ok [8, 6, 1, 5] ∧
    ([8, 6, 1, 5] : List Nat).length ≠ 3 := ⟨rfl, by decide⟩

/-- C6 (amended): normalization replaces `pl` with `.`, splits on `.`,
takes each component's leading run of digits as an integer (discarding
trailing non-numeric suffixes), and right-pads with zeros to at least
three components — a string with more than three numeric components
keeps all of them; in particular `"8.6pl1"` normalizes to `(8,6,1)` and
`"8.6"` to `(8,6,0)`. -/
theorem claim_C6_version_normalization :
    XmlInterface_versions "8.6pl1" = .ok [8, 6, 1] ∧
    XmlInterface_versions "8.6" = .ok [8, 6, 0] ∧
    XmlInterface_versions "8.6.1.5" = .ok [8, 6, 1, 5] ∧
    XmlInterface_versions "8.6+beta1" = .ok [8, 6, 0] ∧
    (∀ (version : String) (t : List Nat),
      XmlInterface_versions version = .ok t → 3 ≤ t.length) := by
  refine ⟨rfl, rfl, rfl, rfl, ?_⟩
  intro version t hver
  rw [XmlInterface_versions] at hver
  cases h : (splitDots (pyReplace version.toList "pl".toList ".".toList)).mapM
      versionComponent with
  | error e =>
    rw [h] at hver
    exact absurd hver (by simp)
  | ok nums =>
    rw [h] at hver
    simp at hver
    subst hver
    simp
    omega

/-- C6 witness: the padding bound applied to the concrete version
string `"8.6"`. -/
theorem claim_C6_version_normalization_witness :
    3 ≤ ([8, 6, 0] : List Nat).length :=
  claim_C6_version_normalization.2.2.2.2 "8.6" [8, 6, 0] rfl

/-! ## Command construction (claim C7) -/

/-- C7: building the `add` command with command string `"Lemma foo."`
and state id `3` emits bytes that parse back to a node tagged `call`
with `val="Add"` whose single argument child decodes to the nested pair
`(("Lemma foo.", -1), (3, true))`. -/
theorem claim_C7_add_command :
    ∃ bytes node c,
      add "Lemma foo." (.int 3) = .ok bytes ∧
      ET_fromstring bytes = some node ∧
      node.tag = "call" ∧
      node.get "val" = some "Add" ∧
      node.children = [c] ∧
      _to_value c = .ok (.tuple [.tuple [.str "Lemma foo.", .int (-1)],
        .tuple [.int 3, .bool true]]) := by
  refine ⟨"<call val=\"Add\"><pair><pair><string>Lemma foo.</string><int>-1</int></pair><pair><int>3</int><bool val=\"true\" /></pair></pair></call>",
    .mk "call" [("val", "Add")] ""
      [.mk "pair" [] ""
        [.mk "pair" [] ""
          [.mk "string" [] "Lemma foo." [] "", .mk "int" [] "-1" [] ""] "",
         .mk "pair" [] ""
          [.mk "int" [] "3" [] "", .mk "bool" [("val", "true")] "" [] ""] ""] ""]
      "",
    .mk "pair" [] ""
      [.mk "pair" [] ""
        [.mk "string" [] "Lemma foo." [] "", .mk "int" [] "-1" [] ""] "",
       .mk "pair" [] ""
        [.mk "int" [] "3" [] "", .mk "bool" [("val", "true")] "" [] ""] ""] "",
    rfl, rfl, rfl, rfl, rfl, rfl⟩

/-! ## Framing (claims C2, C4) -/

theorem raw_response_parse_fail (data : String)
    (h : ET_fromstring ("<coqtoproot>" ++ _unescape data ++ "</coqtoproot>") =
      Option.none) :
    raw_response data = .ok Option.none := by
  rw [raw_response, h]

theorem raw_response_parse_ok (data : String) (root : Xml)
    (h : ET_fromstring ("<coqtoproot>" ++ _unescape data ++ "</coqtoproot>") =
      some root) :
    raw_response data = processRoot root := by
  rw [raw_response, h]

/-- C2 counterexample: a buffer of two whole elements, split at the
boundary after the first: the full buffer yields a completed `Ok`
result, the proper prefix is one complete `value` element, and
`raw_response` on that prefix yields the same completed result — not
the "not yet complete" outcome the claim requires. -/
theorem claim_C2_counterexample :
    raw_response "<value val=\"good\"><unit /></value><feedback />" =
      .ok (some (.ok (.tuple []) "")) ∧
    takePrefix "<value val=\"good\"><unit /></value><feedback />" 34 =
      "<value val=\"good\"><unit /></value>" ∧
    34 < "<value val=\"good\"><unit /></value><feedback />".toList.length ∧
    raw_response "<value val=\"good\"><unit /></value>" =
      .ok (some (.ok (.tuple []) "")) ∧
    raw_response "<value val=\"good\"><unit /></value>" ≠ .ok Option.none := by
  refine ⟨rfl, rfl, by decide, rfl, ?_⟩
  intro h
  rw [show raw_response "<value val=\"good\"><unit /></value>" =
    .ok (some (.ok (.tuple []) "")) from rfl] at h
  simp at h

/-- C2 (amended): for a byte buffer `B` mapping to a completed result
and a split position `i`, feeding the prefix `B[:i]` alone yields "not
yet complete" whenever the prefix is not well-formed (in particular
whenever the split lands inside an element); a prefix that is itself a
well-formed forest may instead already yield a completed result, as the
counterexample shows.  Feeding the full concatenation is the same
single whole-buffer call, so it yields the same completed result. -/
theorem claim_C2_framing_incomplete (B : String) (i : Nat)
    (h : ET_fromstring ("<coqtoproot>" ++ _unescape (takePrefix B i) ++
      "</coqtoproot>") = Option.none) :
    raw_response (takePrefix B i) = .ok Option.none :=
  raw_response_parse_fail (takePrefix B i) h

/-- C2 witness: splitting a complete response buffer inside the start
tag leaves an unparseable prefix, and `raw_response` reports "not yet
complete" on it. -/
theorem claim_C2_framing_incomplete_witness :
    raw_response (takePrefix "<value val=\"good\"><unit /></value>" 10) =
      .ok Option.none :=
  claim_C2_framing_incomplete "<value val=\"good\"><unit /></value>" 10 rfl

theorem scanValue_skip (x : Xml) (val : Option Result) (h : x.tag ≠ "value") :
    scanValue x val = .ok val := by
  rw [scanValue, if_neg h]

theorem scanValue_hit (x : Xml) (val : Option Result) (r : Result)
    (h : x.tag = "value") (hr : _to_response x = .ok r) :
    scanValue x val = .ok (some r) := by
  rw [scanValue, if_pos h, hr]

theorem scanMsgs_skip (x : Xml) (msgs : List PyValue) (h : x.tag ≠ "message") :
    scanMsgs x msgs = .ok msgs := by
  rw [scanMsgs, if_neg h]

theorem scanMsgs_hit (x : Xml) (msgs : List PyValue) (v : PyValue)
    (h : x.tag = "message") (hv : _to_value x = .ok v) :
    scanMsgs x msgs = .ok (msgs ++ [v]) := by
  rw [scanMsgs, if_pos h, hv]

theorem scanResponses_cons (x : Xml) (xs : List Xml) (val : Option Result)
    (msgs : List PyValue) (val2 : Option Result) (msgs2 : List PyValue)
    (h1 : scanValue x val = .ok val2) (h2 : scanMsgs x msgs = .ok msgs2) :
    scanResponses (x :: xs) val msgs = scanResponses xs val2 msgs2 := by
  rw [scanResponses, h1, h2]
  rfl

theorem scan_no_value (cs : List Xml) :
    ∀ msgs : List PyValue,
      (∀ x ∈ cs, x.tag ≠ "value") →
      (∀ x ∈ cs, x.tag = "message" → ∃ v, _to_value x = .ok v) →
      ∃ ms, scanResponses cs Option.none msgs = .ok (Option.none, ms) := by
  induction cs with
  | nil => exact fun msgs _ _ => ⟨msgs, rfl⟩
  | cons x xs ih =>
    intro msgs hnv hmok
    have hxnv : x.tag ≠ "value" := hnv x (List.mem_cons_self x xs)
    have htl1 : ∀ y ∈ xs, y.tag ≠ "value" :=
      fun y hy => hnv y (List.mem_cons_of_mem x hy)
    have htl2 : ∀ y ∈ xs, y.tag = "message" → ∃ v, _to_value y = .ok v :=
      fun y hy => hmok y (List.mem_cons_of_mem x hy)
    by_cases hm : x.tag = "message"
    · obtain ⟨v, hv⟩ := hmok x (List.mem_cons_self x xs) hm
      obtain ⟨ms, hms⟩ := ih (msgs ++ [v]) htl1 htl2
      refine ⟨ms, ?_⟩
      rw [scanResponses_cons x xs Option.none msgs Option.none (msgs ++ [v])
        (scanValue_skip x Option.none hxnv) (scanMsgs_hit x msgs v hm hv), hms]
    · obtain ⟨ms, hms⟩ := ih msgs htl1 htl2
      refine ⟨ms, ?_⟩
      rw [scanResponses_cons x xs Option.none msgs Option.none msgs
        (scanValue_skip x Option.none hxnv) (scanMsgs_skip x msgs hm), hms]

theorem processRoot_unfold (root : Xml) :
    processRoot root =
      match scanResponses root.children Option.none [] with
      | .error e => .error e
      | .ok (Option.none, _) => .ok Option.none
      | .ok (some r, msgs) =>
        match joinMsgs msgs with
        | .ok j => .ok (some (r.addMsg j))
        | .error e => .error e := rfl

/-- C4 counterexample: the buffer `<message />` parses successfully and
its only root child is a `message` node (no `value` child), yet
`raw_response` does not return the "not yet complete" outcome: decoding
the malformed message (it has no `richpp` child) raises
`AttributeError`, which propagates. -/
theorem claim_C4_counterexample :
    ET_fromstring ("<coqtoproot>" ++ _unescape "<message />" ++ "</coqtoproot>") =
      some (.mk "coqtoproot" [] "" [.mk "message" [] "" [] ""] "") ∧
    (Xml.mk "message" [] "" [] "").tag ≠ "value" ∧
    raw_response "<message />" =
      .error "AttributeError: NoneType object has no attribute tag" := by
  refine ⟨rfl, by decide, rfl⟩

/-- C4 (amended): a buffer parsing into two `message` elements followed
by one `value` element with `val="good"` yields a `Success` whose
message is the two decoded message texts joined by a blank line; and a
buffer that parses successfully with no `value` child among the root's
children yields the "not yet complete" outcome provided every `message`
child decodes without error (a malformed `message` child instead raises
a decode error, per the framer's failure semantics). -/
theorem claim_C4_message_accumulation :
    (∀ (data : String) (root m1 m2 vx : Xml) (s1 s2 : String) (v : PyValue),
      ET_fromstring ("<coqtoproot>" ++ _unescape data ++ "</coqtoproot>") =
        some root →
      root.children = [m1, m2, vx] →
      m1.tag = "message" → m2.tag = "message" → vx.tag = "value" →
      _to_value m1 = .ok (.str s1) → _to_value m2 = .ok (.str s2) →
      _to_response vx = .ok (.ok v "") →
      raw_response data = .ok (some (.ok v (s1 ++ "\n\n" ++ s2)))) ∧
    (∀ (data : String) (root : Xml),
      ET_fromstring ("<coqtoproot>" ++ _unescape data ++ "</coqtoproot>") =
        some root →
      (∀ x ∈ root.children, x.tag ≠ "value") →
      (∀ x ∈ root.children, x.tag = "message" → ∃ v, _to_value x = .ok v) →
      raw_response data = .ok Option.none) := by
  constructor
  · intro data root m1 m2 vx s1 s2 v hparse hch hm1 hm2 hvx hd1 hd2 hdv
    rw [raw_response_parse_ok data root hparse, processRoot_unfold, hch]
    rw [scanResponses_cons m1 [m2, vx] Option.none [] Option.none [.str s1]
      (scanValue_skip m1 Option.none (by simp [hm1]))
      (scanMsgs_hit m1 [] (.str s1) hm1 hd1)]
    rw [scanResponses_cons m2 [vx] Option.none [.str s1] Option.none
      [.str s1, .str s2]
      (scanValue_skip m2 Option.none (by simp [hm2]))
      (scanMsgs_hit m2 [.str s1] (.str s2) hm2 hd2)]
    rw [scanResponses_cons vx [] Option.none [.str s1, .str s2]
      (some (.ok v "")) [.str s1, .str s2]
      (scanValue_hit vx Option.none (.ok v "") hvx hdv)
      (scanMsgs_skip vx [.str s1, .str s2] (by simp [hvx]))]
    rfl
  · intro data root hparse hnv hmok
    obtain ⟨ms, hms⟩ := scan_no_value root.children [] hnv hmok
    rw [raw_response_parse_ok data root hparse, processRoot_unfold, hms]

/-- C4 witness: the two halves applied to concrete buffers — two
messages then a good `value` accumulate into the result's message, and
a value-less buffer with one well-formed message is not yet complete. -/
theorem claim_C4_message_accumulation_witness :
    raw_response "<message><richpp>m1</richpp></message><message><richpp>m2</richpp></message><value val=\"good\"><unit /></value>" =
      .ok (some (.ok (.tuple []) ("m1" ++ "\n\n" ++ "m2"))) ∧
    raw_response "<message><richpp>hi</richpp></message>" = .ok Option.none :=
  ⟨claim_C4_message_accumulation.1
      "<message><richpp>m1</richpp></message><message><richpp>m2</richpp></message><value val=\"good\"><unit /></value>"
      (.mk "coqtoproot" [] ""
        [.mk "message" [] "" [.mk "richpp" [] "m1" [] ""] "",
         .mk "message" [] "" [.mk "richpp" [] "m2" [] ""] "",
         .mk "value" [("val", "good")] "" [.mk "unit" [] "" [] ""] ""] "")
      (.mk "message" [] "" [.mk "richpp" [] "m1" [] ""] "")
      (.mk "message" [] "" [.mk "richpp" [] "m2" [] ""] "")
      (.mk "value" [("val", "good")] "" [.mk "unit" [] "" [] ""] "")
      "m1" "m2" (.tuple []) rfl rfl rfl rfl rfl rfl rfl rfl,
   claim_C4_message_accumulation.2
      "<message><richpp>hi</richpp></message>"
      (.mk "coqtoproot" [] ""
        [.mk "message" [] "" [.mk "richpp" [] "hi" [] ""] ""] "")
      rfl
      (by intro x hx; simp [Xml.children] at hx; subst hx; decide)
      (by intro x hx hm;
          exact ⟨.str "hi", by simp [Xml.children] at hx; subst hx; rfl⟩)⟩
